import Mathlib

/-!
Verification of the binomial-lattice derivative pricer (`lattice.py`,
`options.py`, `bonds.py`, `term_structure.py`) against its natural-language
specification.  Python floats are modelled as `ℚ` wherever the code only uses
field arithmetic, and as `ℝ` where the code calls `math.exp` / `math.sqrt` /
`pow`.  A lattice cell is `Option ℚ`: `none` is the allocation filler (`''` in
`lattice.py`, never read by a correct build), `some q` a written value.
Python exceptions are modelled with `Except`.
-/

namespace Derivatives

/-- Errors raised by the Python code (modelled). -/
inductive PyErr where
  | exception (msg : String)
  | indexError
  | typeError
  | notBuilt
  deriving DecidableEq, Repr

/-- One lattice cell: `none` is the allocation filler, `some q` a written number. -/
abbrev Cell := Option ℚ

/-- A lattice seen as a total map `(state, period) ↦ cell`. -/
abbrev Grid := ℕ → ℕ → Cell

/-- Writing one cell: `self.lattice[s][p] = v`. -/
def Grid.set (g : Grid) (s p : ℕ) (v : ℚ) : Grid :=
  fun a b => if a = s ∧ b = p then some v else g a b

/-- Reading one (written) cell: `self.lattice[s][p]`.  Reads of the allocation
filler would raise `TypeError` in Python; they default to `0` here and are
proved never to occur inside the valid triangle of a completed build. -/
def Grid.val (g : Grid) (s p : ℕ) : ℚ :=
  (g s p).getD 0

/-- The allocation state of `lattice.Lattice.__init__`: every cell `''`. -/
def emptyGrid : Grid := fun _ _ => none

/-- The allocation state of `options.Lattice.__init__`: every cell `0`. -/
def zeroGrid : Grid := fun _ _ => some 0

/-- `lattice.Lattice._back_prop`: `lattice[row+1][column+1]*rnp[0] +
lattice[row][column+1]*rnp[1]`. -/
def backProp (g : Grid) (row column : ℕ) (rnp : ℚ × ℚ) : ℚ :=
  g.val (row + 1) (column + 1) * rnp.1 + g.val row (column + 1) * rnp.2

/-- Inner `for state in ...` loop writing cells of one period `p`. -/
def stateLoop (body : Grid → ℕ → ℕ → ℚ) (p : ℕ) (states : List ℕ) (g : Grid) :
    Grid :=
  states.foldl (fun h s => h.set s p (body h s p)) g

/-- Outer `for period in ...` loop of a lattice build. -/
def buildLoop (body : Grid → ℕ → ℕ → ℚ) (periods : List ℕ)
    (stateList : ℕ → List ℕ) (g : Grid) : Grid :=
  periods.foldl (fun h p => stateLoop body p (stateList p) h) g

/-- `range(n-1, -1, -1)`, i.e. `[n-1, ..., 0]`. -/
def descList (n : ℕ) : List ℕ := (List.range n).reverse

/-- `range(1, n+1)`, i.e. `[1, ..., n]`. -/
def ascFrom1 (n : ℕ) : List ℕ := List.range' 1 n

/-- `range(0, p+1)`, i.e. `[0, ..., p]`. -/
def ascStates (p : ℕ) : List ℕ := List.range (p + 1)

/-- `range(p, -1, -1)`, i.e. `[p, ..., 0]`. -/
def descStates (p : ℕ) : List ℕ := (List.range (p + 1)).reverse

/-! ### options.py — option flags (`Option._set_option_flags` and the
module-level `set_option_flags`, which have identical bodies) -/

/-- Python's `str.lower`: every character lower-cased. -/
def pyLower (s : String) : String := ⟨s.data.map Char.toLower⟩

/-- `options.set_option_flags` / `options.Option._set_option_flags`:
flags start as `[1.0, 'E']`; `put` sets the sign to `-1.0`, anything other
than `call`/`put` raises; `american` sets the style to `'A'`, anything other
than `european`/`american` raises; finally `if flags[0] == 1: flags[1] = 'E'`
(the "American call options are priced as European" line). -/
def set_option_flags (opt ty : String) : Except PyErr (ℚ × Char) := do
  let f0 : ℚ ←
    if pyLower opt = "put" then pure (-1)
    else if pyLower opt = "call" then pure 1
    else throw (PyErr.exception "OPT should be call or put")
  let f1 : Char ←
    if pyLower ty = "american" then pure 'A'
    else if pyLower ty = "european" then pure 'E'
    else throw (PyErr.exception "TYPE should be european or american")
  let f1 := if f0 = 1 then 'E' else f1
  return (f0, f1)

/-! ### bonds.py — BondFFParameters -/

/-- Python's `str.capitalize`: first character upper-cased, the rest
lower-cased. -/
def pyCapitalize (s : String) : String :=
  match s.data with
  | [] => ""
  | c :: cs => ⟨c.toUpper :: cs.map Char.toLower⟩

/-- Record produced by `bonds.BondFFParameters.__init__` on success. -/
structure BondFFParameters where
  type : String
  coupon : ℚ
  nperiods : ℕ
  deriving DecidableEq, Repr

/-- `bonds.BondFFParameters.__init__`: accepts `ff_type` iff
`str.capitalize(ff_type)` is a member of the tuple `('forward', 'future')`,
else raises `Invalid type`. -/
def bondFFInit (ff_type : String) (ff_coupon : ℚ) (ff_nperiods : ℕ) :
    Except PyErr BondFFParameters :=
  if pyCapitalize ff_type = "forward" ∨ pyCapitalize ff_type = "future" then
    .ok ⟨pyCapitalize ff_type, ff_coupon, ff_nperiods⟩
  else
    .error (PyErr.exception "Invalid type")

/-! ### term_structure.py / options.py / bonds.py — lattice builds -/

/-- Body of `term_structure.ShortRate._build` (also the body of
`options.Shares._build`, which applies the same recursion with
`security.r_ud`): `state == 0` takes `d * lattice[state][period-1]`, otherwise
`u * lattice[state-1][period-1]`. -/
def srBody (u d : ℚ) (g : Grid) (s p : ℕ) : ℚ :=
  if s = 0 then d * g.val s (p - 1) else u * g.val (s - 1) (p - 1)

/-- `term_structure.ShortRate._build`: seed `lattice[0][0] = init`, then
forward loop `period = 1..size`, `state = 0..period`. -/
def shortRateBuild (r00 u d : ℚ) (n : ℕ) : Grid :=
  buildLoop (srBody u d) (ascFrom1 n) ascStates (emptyGrid.set 0 0 r00)

/-- `options.Shares._build`: identical recursion over the `options.Lattice`
zero-filled allocation, seeded with `security.init`. -/
def sharesBuild (s0 u d : ℚ) (n : ℕ) : Grid :=
  buildLoop (srBody u d) (ascFrom1 n) ascStates (zeroGrid.set 0 0 s0)

/-- Body of `bonds.ZCB.build`: face value at `period == size`, otherwise
`_back_prop(state, period, rnp) / (1 + sh_rate.lattice[state][period])`. -/
def zcbBody (face : ℚ) (shRate : Grid) (rnp : ℚ × ℚ) (size : ℕ)
    (g : Grid) (s p : ℕ) : ℚ :=
  if p = size then face else backProp g s p rnp / (1 + shRate.val s p)

/-- `bonds.ZCB.build`: backward loop `period = size..0`, `state = period..0`. -/
def zcbBuild (face : ℚ) (shRate : Grid) (rnp : ℚ × ℚ) (size : ℕ) : Grid :=
  buildLoop (zcbBody face shRate rnp size) (descList (size + 1)) descStates
    emptyGrid

/-- Body of `term_structure.CapFloorLet.build` (`size` is the already-reduced
arrears horizon): terminal `flag*(sh_rate - rate)/(1 + sh_rate)`, interior
`_back_prop / (1 + sh_rate)`. -/
def cfBody (flag rate : ℚ) (shRate : Grid) (rnp : ℚ × ℚ) (size : ℕ)
    (g : Grid) (s p : ℕ) : ℚ :=
  if p = size then flag * (shRate.val s p - rate) / (1 + shRate.val s p)
  else backProp g s p rnp / (1 + shRate.val s p)

/-- `term_structure.CapFloorLet`: the constructor allocates
`(nperiods+1)×(nperiods+1)` and then does `self.size -= 1` (arrears), so the
build loops run over `period = nperiods-1 .. 0`.  With `nperiods = 0` the
Python loop `range(-1, -1, -1)` is empty and nothing is written. -/
def capFloorLetBuild (flag rate : ℚ) (shRate : Grid) (rnp : ℚ × ℚ)
    (nperiods : ℕ) : Grid :=
  match nperiods with
  | 0 => emptyGrid
  | m + 1 =>
    buildLoop (cfBody flag rate shRate rnp m) (descList (m + 1)) descStates
      emptyGrid

/-- Body of `term_structure.Swap.build`: terminal
`(sh_rate - fixed)/(1 + sh_rate)`, interior
`((sh_rate - fixed) + _back_prop) / (1 + sh_rate)`. -/
def swapBody (fixed : ℚ) (shRate : Grid) (rnp : ℚ × ℚ) (size : ℕ)
    (g : Grid) (s p : ℕ) : ℚ :=
  if p = size then (shRate.val s p - fixed) / (1 + shRate.val s p)
  else ((shRate.val s p - fixed) + backProp g s p rnp) / (1 + shRate.val s p)

/-- `term_structure.Swap`: same arrears reduction `self.size -= 1` as
`CapFloorLet`, then backward build. -/
def swapBuild (fixed : ℚ) (shRate : Grid) (rnp : ℚ × ℚ) (nperiods : ℕ) :
    Grid :=
  match nperiods with
  | 0 => emptyGrid
  | m + 1 =>
    buildLoop (swapBody fixed shRate rnp m) (descList (m + 1)) descStates
      emptyGrid

/-- Body of `term_structure.Swaption.build`: terminal
`max(0, swap.lattice[state][period])`, interior `_back_prop / (1 + sh_rate)`.
No arrears reduction is applied to swaptions. -/
def swaptionBody (shRate swapl : Grid) (rnp : ℚ × ℚ) (size : ℕ)
    (g : Grid) (s p : ℕ) : ℚ :=
  if p = size then max 0 (swapl.val s p)
  else backProp g s p rnp / (1 + shRate.val s p)

/-- `term_structure.Swaption.build`: backward loop over the full horizon. -/
def swaptionBuild (shRate swapl : Grid) (rnp : ℚ × ℚ) (size : ℕ) : Grid :=
  buildLoop (swaptionBody shRate swapl rnp size) (descList (size + 1))
    descStates emptyGrid

/-- Body of `term_structure.ElementaryPrices.build` (forward recursion):
`state == 0` takes `rnp[0]*lattice[state][period-1]/(1+sh[state][period-1])`;
`state == period` takes `rnp[0]*lattice[state-1][period-1]/(1+sh[state-1][period-1])`;
interior states sum both terms with `rnp[0]` on the `state-1` predecessor and
`rnp[1]` on the `state` predecessor. -/
def elemBody (shRate : Grid) (rnp : ℚ × ℚ) (g : Grid) (s p : ℕ) : ℚ :=
  if s = 0 then rnp.1 * g.val s (p - 1) / (1 + shRate.val s (p - 1))
  else if s = p then
    rnp.1 * g.val (s - 1) (p - 1) / (1 + shRate.val (s - 1) (p - 1))
  else
    rnp.1 * g.val (s - 1) (p - 1) / (1 + shRate.val (s - 1) (p - 1)) +
      rnp.2 * g.val s (p - 1) / (1 + shRate.val s (p - 1))

/-- `term_structure.ElementaryPrices.build`: seed `lattice[0][0] = 1.0`, then
forward loop `period = 1..size`, `state = 0..period`. -/
def elemBuild (shRate : Grid) (rnp : ℚ × ℚ) (size : ℕ) : Grid :=
  buildLoop (elemBody shRate rnp) (ascFrom1 size) ascStates
    (emptyGrid.set 0 0 1)

/-! ### term_structure.py — ElementaryPrices object state and `discount` -/

/-- Pointwise update of an array modelled as a map. -/
def updFn {α : Type} (f : ℕ → α) (i : ℕ) (v : α) : ℕ → α :=
  fun j => if j = i then v else f j

/-- Mutable state of a `term_structure.ElementaryPrices` object: the lattice,
its `size`, `parameters.base`, and the persistent `price` / `rates` arrays
allocated in `__init__` (all `0.`). -/
structure ElemState where
  lattice : Grid
  size : ℕ
  base : ℚ
  price : ℕ → ℚ
  rates : ℕ → ℝ
  built : Bool

/-- One `period` iteration of `ElementaryPrices.discount`:
`price[period] += lattice[state][period]` for `state = 0..period`, then
`price[period] *= base`, then
`rates[period] = pow(base/price[period], 1/period) - 1`. -/
noncomputable def discountStep (st : ElemState) (period : ℕ) : ElemState :=
  let acc := (List.range (period + 1)).foldl
    (fun acc state => acc + st.lattice.val state period) (st.price period)
  let pr := acc * st.base
  let r : ℝ := ((st.base / pr : ℚ) : ℝ) ^ ((1 : ℝ) / (period : ℝ)) - 1
  { st with price := updFn st.price period pr, rates := updFn st.rates period r }

/-- `term_structure.ElementaryPrices.discount`: raises if `build()` has not
run, otherwise loops `period = 1..size` accumulating into the persistent
`price` array and (re)assigning `rates`. -/
noncomputable def ElemState.discount (st : ElemState) :
    Except PyErr ElemState :=
  if st.built then .ok ((ascFrom1 st.size).foldl discountStep st)
  else .error PyErr.notBuilt

/-- The `ElementaryPrices` object as it stands right after `__init__` (price
and rates arrays zero-filled) and a completed `build(...)`. -/
def elemStateAfterBuild (shRate : Grid) (rnp : ℚ × ℚ) (size : ℕ) (base : ℚ) :
    ElemState :=
  ⟨elemBuild shRate rnp size, size, base, fun _ => 0, fun _ => 0, true⟩

/-- Sum of the lattice cells of one period, `Σ_{state ≤ p} lattice[state][p]`
(the quantity accumulated by one `discount` pass). -/
def periodSum (g : Grid) (p : ℕ) : ℚ :=
  (List.range (p + 1)).foldl (fun acc state => acc + g.val state p) 0

/-! ### lattice.py — raw Python list indexing (`Lattice.__init__`,
`_back_prop`) -/

/-- Python list indexing `l[i]`: negative indices wrap by adding `len(l)`;
anything still out of range raises `IndexError`. -/
def pyIdx {α : Type} (l : List α) (i : ℤ) : Except PyErr α :=
  let j : ℤ := if i < 0 then i + l.length else i
  if h : 0 ≤ j ∧ j.toNat < l.length then .ok (l.get ⟨j.toNat, h.2⟩)
  else .error PyErr.indexError

/-- `lattice.Lattice.__init__`: a `(size+1) × (size+1)` list of lists filled
with `''`. -/
def latticeAlloc (size : ℕ) : List (List Cell) :=
  List.replicate (size + 1) (List.replicate (size + 1) (none : Cell))

/-- Single-cell access `self.lattice[state][period]` on the raw list of
lists: the row lookup runs first and propagates its `IndexError`. -/
def valueAt (lat : List (List Cell)) (s p : ℤ) : Except PyErr Cell :=
  match pyIdx lat s with
  | .ok row => pyIdx row p
  | .error e => .error e

/-- Using a cell in arithmetic: a `''` filler raises `TypeError`. -/
def cellNum (c : Cell) : Except PyErr ℚ :=
  match c with
  | some q => .ok q
  | none => .error PyErr.typeError

/-- `lattice.Lattice._back_prop` on the raw list representation:
`lattice[row+1][column+1]*rnp[0] + lattice[row][column+1]*rnp[1]`, with
`p_1` fetched first, exactly as in the source. -/
def backPropL (lat : List (List Cell)) (row column : ℤ) (rnp : ℚ × ℚ) :
    Except PyErr ℚ :=
  match valueAt lat (row + 1) (column + 1) with
  | .error e => .error e
  | .ok c1 =>
    match cellNum c1 with
    | .error e => .error e
    | .ok p1 =>
      match valueAt lat row (column + 1) with
      | .error e => .error e
      | .ok c2 =>
        match cellNum c2 with
        | .error e => .error e
        | .ok p2 => .ok (p1 * rnp.1 + p2 * rnp.2)

/-- A fully written `(H+1) × (H+1)` lattice whose cell `(s, p)` holds
`f s p` — the state of a lattice after a build has filled it. -/
def fullGrid (H : ℕ) (f : ℕ → ℕ → ℚ) : List (List Cell) :=
  (List.range (H + 1)).map fun s =>
    (List.range (H + 1)).map fun p => some (f s p)

/-! ### options.py — Security calibration (real-valued) -/

/-- Raw inputs of `options.Security`: spot, maturity (years), volatility,
period count, risk-free rate, dividend yield. -/
structure Security where
  init : ℝ
  maturity : ℝ
  volatility : ℝ
  n_periods : ℕ
  rate : ℝ
  dividend : ℝ

/-- `options.Security._binomial_model_parameter`:
`u = exp(volatility * sqrt(maturity / n_periods))`, `d = 1/u`. -/
noncomputable def Security.r_ud (sec : Security) : ℝ × ℝ :=
  let u := Real.exp (sec.volatility * Real.sqrt (sec.maturity / sec.n_periods))
  (u, 1 / u)

/-- The quantity `num = exp((rate - dividend) * maturity / n_periods)`
computed inside `options.Security._risk_free_proba` (the per-step riskless
growth factor). -/
noncomputable def Security.growthFactor (sec : Security) : ℝ :=
  Real.exp ((sec.rate - sec.dividend) * sec.maturity / sec.n_periods)

/-- `options.Security._risk_free_proba`: `q = (num - d) / (u - d)`. -/
noncomputable def Security.rfp (sec : Security) : ℝ :=
  (sec.growthFactor - sec.r_ud.2) / (sec.r_ud.1 - sec.r_ud.2)

/-- Calibration failure modes observable in the Python code. -/
inductive CalibErr where
  | zeroDivision
  | domain
  deriving DecidableEq, Repr

/-- `options.Security.__init__` as a fallible computation of `(u, d, q)`,
with guards exactly where the Python arithmetic raises: `maturity/n_periods`
raises `ZeroDivisionError` when `n_periods == 0`; `math.sqrt` raises a domain
error on a negative argument; the division by `u - d` in
`_risk_free_proba` raises `ZeroDivisionError` when `u == d`.  No other
validation exists in the source. -/
noncomputable def securityCalib (T σ : ℝ) (n : ℤ) (r δ : ℝ) :
    Except CalibErr (ℝ × ℝ × ℝ) :=
  if n = 0 then .error CalibErr.zeroDivision
  else if T / (n : ℝ) < 0 then .error CalibErr.domain
  else if Real.exp (σ * Real.sqrt (T / (n : ℝ)))
      - 1 / Real.exp (σ * Real.sqrt (T / (n : ℝ))) = 0 then
    .error CalibErr.zeroDivision
  else
    .ok (Real.exp (σ * Real.sqrt (T / (n : ℝ))),
      1 / Real.exp (σ * Real.sqrt (T / (n : ℝ))),
      (Real.exp ((r - δ) * T / (n : ℝ))
          - 1 / Real.exp (σ * Real.sqrt (T / (n : ℝ))))
        / (Real.exp (σ * Real.sqrt (T / (n : ℝ)))
          - 1 / Real.exp (σ * Real.sqrt (T / (n : ℝ)))))

/-! ## Generic lemmas about the loop combinators -/

/-- A state loop leaves untouched every cell whose period differs from `p` or
whose state is not in the iteration list. -/
theorem stateLoop_preserve (body : Grid → ℕ → ℕ → ℚ) (p : ℕ) :
    ∀ (states : List ℕ) (g : Grid) (a b : ℕ), b ≠ p ∨ a ∉ states →
      stateLoop body p states g a b = g a b := by
  intro states
  induction states with
  | nil => intro g a b _; rfl
  | cons s rest ih =>
    intro g a b h
    have h1 : b ≠ p ∨ a ∉ rest := by
      rcases h with h | h
      · exact Or.inl h
      · exact Or.inr fun hm => h (List.mem_cons_of_mem _ hm)
    have h2 : ¬(a = s ∧ b = p) := by
      rintro ⟨rfl, rfl⟩
      rcases h with h | h
      · exact h rfl
      · exact h (List.mem_cons_self _ _)
    calc stateLoop body p (s :: rest) g a b
        = stateLoop body p rest (g.set s p (body g s p)) a b := rfl
      _ = (g.set s p (body g s p)) a b := ih _ a b h1
      _ = g a b := by simp only [Grid.set, if_neg h2]

/-- If the loop body at period `p` does not read period-`p` cells, a state
loop writes `some (body g a p)` at every visited state `a` (later writes in
the same sweep cannot change the value, since they only touch period `p`). -/
theorem stateLoop_val (body : Grid → ℕ → ℕ → ℚ) (p : ℕ)
    (hb : ∀ (g₁ g₂ : Grid) (s : ℕ), (∀ a b, b ≠ p → g₁ a b = g₂ a b) →
      body g₁ s p = body g₂ s p) :
    ∀ (states : List ℕ) (g : Grid) (a : ℕ), a ∈ states →
      stateLoop body p states g a p = some (body g a p) := by
  intro states
  induction states with
  | nil => intro g a h; exact absurd h (List.not_mem_nil a)
  | cons s rest ih =>
    intro g a ha
    by_cases hm : a ∈ rest
    · calc stateLoop body p (s :: rest) g a p
          = stateLoop body p rest (g.set s p (body g s p)) a p := rfl
        _ = some (body (g.set s p (body g s p)) a p) := ih _ a hm
        _ = some (body g a p) := by
            congr 1
            apply hb
            intro a' b' hbp
            simp only [Grid.set]
            rw [if_neg]
            rintro ⟨_, rfl⟩
            exact hbp rfl
    · have ha' : a = s := by
        rcases List.mem_cons.mp ha with h | h
        · exact h
        · exact absurd h hm
      subst ha'
      calc stateLoop body p (a :: rest) g a p
          = stateLoop body p rest (g.set a p (body g a p)) a p := rfl
        _ = (g.set a p (body g a p)) a p :=
            stateLoop_preserve body p rest _ a p (Or.inr hm)
        _ = some (body g a p) := by simp [Grid.set]

/-- A build loop leaves untouched every cell that no iteration writes. -/
theorem buildLoop_preserve (body : Grid → ℕ → ℕ → ℚ) (sl : ℕ → List ℕ) :
    ∀ (periods : List ℕ) (g : Grid) (a b : ℕ),
      (∀ p ∈ periods, b ≠ p ∨ a ∉ sl p) →
      buildLoop body periods sl g a b = g a b := by
  intro periods
  induction periods with
  | nil => intro g a b _; rfl
  | cons p rest ih =>
    intro g a b h
    calc buildLoop body (p :: rest) sl g a b
        = buildLoop body rest sl (stateLoop body p (sl p) g) a b := rfl
      _ = stateLoop body p (sl p) g a b :=
          ih _ a b fun q hq => h q (List.mem_cons_of_mem _ hq)
      _ = g a b := stateLoop_preserve body p (sl p) g a b
          (h p (List.mem_cons_self _ _))

/-- `descList (n+1)` processes period `n` first. -/
theorem descList_succ (n : ℕ) : descList (n + 1) = n :: descList n := by
  simp [descList, List.range_succ]

/-- `ascFrom1 (n+1)` processes period `n+1` last. -/
theorem ascFrom1_succ (n : ℕ) : ascFrom1 (n + 1) = ascFrom1 n ++ [n + 1] := by
  simp [ascFrom1, List.range'_concat, Nat.add_comm]

/-- Characterization of a backward build (`for period in range(n-1, -1, -1)`)
whose body at period `p` reads only cells of periods `> p`: periods `≥ n` are
never written, and every visited cell `(a, p)` of the result `R` satisfies the
fixpoint equation `R a p = some (body R a p)`. -/
theorem bwLoop_spec (body : Grid → ℕ → ℕ → ℚ) (sl : ℕ → List ℕ)
    (hb : ∀ (p : ℕ) (g₁ g₂ : Grid) (s : ℕ),
      (∀ a b, p < b → g₁ a b = g₂ a b) → body g₁ s p = body g₂ s p) :
    ∀ (n : ℕ) (g : Grid),
      (∀ a b, n ≤ b → buildLoop body (descList n) sl g a b = g a b) ∧
      (∀ p, p < n → ∀ a, a ∈ sl p →
        buildLoop body (descList n) sl g a p
          = some (body (buildLoop body (descList n) sl g) a p)) := by
  intro n
  induction n with
  | zero =>
    intro g
    refine ⟨fun a b _ => rfl, fun p hp => absurd hp (Nat.not_lt_zero p)⟩
  | succ n ih =>
    intro g
    have hstep : buildLoop body (descList (n + 1)) sl g
        = buildLoop body (descList n) sl (stateLoop body n (sl n) g) := by
      rw [descList_succ]; rfl
    obtain ⟨ih1, ih2⟩ := ih (stateLoop body n (sl n) g)
    have hhigh : ∀ a b, n + 1 ≤ b →
        buildLoop body (descList (n + 1)) sl g a b = g a b := by
      intro a b hbb
      rw [hstep, ih1 a b (Nat.le_of_succ_le hbb)]
      exact stateLoop_preserve body n (sl n) g a b (Or.inl (by omega))
    refine ⟨hhigh, ?_⟩
    intro p hp a ha
    rcases Nat.lt_succ_iff_lt_or_eq.mp hp with hlt | rfl
    · rw [hstep]
      exact ih2 p hlt a ha
    · have hval : buildLoop body (descList (p + 1)) sl g a p
          = some (body g a p) := by
        rw [hstep, ih1 a p le_rfl]
        exact stateLoop_val body p
          (fun g₁ g₂ s hgg => hb p g₁ g₂ s fun a' b' hb' => hgg a' b' (by omega))
          (sl p) g a ha
      rw [hval]
      congr 1
      apply hb p
      intro a' b' hb'
      exact (hhigh a' b' (by omega)).symm

/-- Characterization of a forward build (`for period in range(1, n+1)`) whose
body at period `p` reads only cells of periods `< p`: period `0` and periods
`> n` are never written, and every visited cell `(a, p)` of the result `R`
satisfies the fixpoint equation `R a p = some (body R a p)`. -/
theorem fwLoop_spec (body : Grid → ℕ → ℕ → ℚ) (sl : ℕ → List ℕ)
    (hb : ∀ (p : ℕ), 1 ≤ p → ∀ (g₁ g₂ : Grid) (s : ℕ),
      (∀ a b, b < p → g₁ a b = g₂ a b) → body g₁ s p = body g₂ s p) :
    ∀ (n : ℕ) (g : Grid),
      (∀ a b, b = 0 ∨ n < b → buildLoop body (ascFrom1 n) sl g a b = g a b) ∧
      (∀ p, 1 ≤ p → p ≤ n → ∀ a, a ∈ sl p →
        buildLoop body (ascFrom1 n) sl g a p
          = some (body (buildLoop body (ascFrom1 n) sl g) a p)) := by
  intro n
  induction n with
  | zero =>
    intro g
    exact ⟨fun a b _ => rfl, fun p h1 h2 => absurd (le_trans h1 h2) (by omega)⟩
  | succ n ih =>
    intro g
    have hstep : buildLoop body (ascFrom1 (n + 1)) sl g
        = stateLoop body (n + 1) (sl (n + 1))
            (buildLoop body (ascFrom1 n) sl g) := by
      rw [ascFrom1_succ]
      simp [buildLoop, List.foldl_append]
    obtain ⟨ih1, ih2⟩ := ih g
    have hoff : ∀ a b, b ≠ n + 1 →
        buildLoop body (ascFrom1 (n + 1)) sl g a b
          = buildLoop body (ascFrom1 n) sl g a b := by
      intro a b hbb
      rw [hstep]
      exact stateLoop_preserve body (n + 1) (sl (n + 1)) _ a b (Or.inl hbb)
    refine ⟨?_, ?_⟩
    · intro a b hbb
      have hne : b ≠ n + 1 := by omega
      rw [hoff a b hne]
      exact ih1 a b (by omega)
    · intro p h1 h2 a ha
      by_cases hp : p = n + 1
      · subst hp
        have hval : buildLoop body (ascFrom1 (n + 1)) sl g a (n + 1)
            = some (body (buildLoop body (ascFrom1 n) sl g) a (n + 1)) := by
          rw [hstep]
          exact stateLoop_val body (n + 1)
            (fun g₁ g₂ s hgg =>
              hb (n + 1) (by omega) g₁ g₂ s fun a' b' hb' =>
                hgg a' b' (by omega))
            (sl (n + 1)) _ a ha
        rw [hval]
        congr 1
        apply hb (n + 1) (by omega)
        intro a' b' hb'
        exact (hoff a' b' (by omega)).symm
      · have hp' : p ≤ n := by omega
        rw [hoff a p hp, ih2 p h1 hp' a ha]
        congr 1
        apply hb p h1
        intro a' b' hb'
        exact (hoff a' b' (by omega)).symm

/-- Two bodies that agree on every visited `(state, period)` pair build the
same lattice. -/
theorem stateLoop_congr (body₁ body₂ : Grid → ℕ → ℕ → ℚ) (p : ℕ) :
    ∀ (states : List ℕ) (g : Grid),
      (∀ (g' : Grid) (s : ℕ), s ∈ states → body₁ g' s p = body₂ g' s p) →
      stateLoop body₁ p states g = stateLoop body₂ p states g := by
  intro states
  induction states with
  | nil => intro g _; rfl
  | cons s rest ih =>
    intro g h
    calc stateLoop body₁ p (s :: rest) g
        = stateLoop body₁ p rest (g.set s p (body₁ g s p)) := rfl
      _ = stateLoop body₂ p rest (g.set s p (body₁ g s p)) :=
          ih _ fun g' s' hs' => h g' s' (List.mem_cons_of_mem _ hs')
      _ = stateLoop body₂ p (s :: rest) g := by
          rw [h g s (List.mem_cons_self _ _)]; rfl

/-- Build-level congruence: bodies agreeing on all visited cells produce
identical lattices. -/
theorem buildLoop_congr (body₁ body₂ : Grid → ℕ → ℕ → ℚ) (sl : ℕ → List ℕ) :
    ∀ (periods : List ℕ) (g : Grid),
      (∀ (g' : Grid) (s p : ℕ), p ∈ periods → s ∈ sl p →
        body₁ g' s p = body₂ g' s p) →
      buildLoop body₁ periods sl g = buildLoop body₂ periods sl g := by
  intro periods
  induction periods with
  | nil => intro g _; rfl
  | cons p rest ih =>
    intro g h
    calc buildLoop body₁ (p :: rest) sl g
        = buildLoop body₁ rest sl (stateLoop body₁ p (sl p) g) := rfl
      _ = buildLoop body₂ rest sl (stateLoop body₁ p (sl p) g) :=
          ih _ fun g' s q hq hs => h g' s q (List.mem_cons_of_mem _ hq) hs
      _ = buildLoop body₂ (p :: rest) sl g := by
          rw [stateLoop_congr body₁ body₂ p (sl p) g
            fun g' s hs => h g' s p (List.mem_cons_self _ _) hs]
          rfl

/-- Membership in the descending state list is exactly `s ≤ p`. -/
theorem mem_descStates (s p : ℕ) : s ∈ descStates p ↔ s ≤ p := by
  simp [descStates, List.mem_range, Nat.lt_succ_iff]

/-- Membership in the ascending state list is exactly `s ≤ p`. -/
theorem mem_ascStates (s p : ℕ) : s ∈ ascStates p ↔ s ≤ p := by
  simp [ascStates, List.mem_range, Nat.lt_succ_iff]

/-- Membership in the descending period list is exactly `p < n`. -/
theorem mem_descList (p n : ℕ) : p ∈ descList n ↔ p < n := by
  simp [descList, List.mem_range]

/-- Membership in the ascending period list is exactly `1 ≤ p ≤ n`. -/
theorem mem_ascFrom1 (p n : ℕ) : p ∈ ascFrom1 n ↔ 1 ≤ p ∧ p ≤ n := by
  simp [ascFrom1, List.mem_range'_1]
  omega

/-! ## C1 — option flags for an American call -/

/-- C1 counterexample: constructing the flags for side `'call'`, style
`'american'` yields `(1.0, 'E')` — the style flag has been rewritten to
European by the `if flags[0] == 1: flags[1] = 'E'` line, contradicting the
claim that option-flag construction never rewrites an American call's style
flag to European. -/
theorem americanCall_flag_rewritten :
    set_option_flags "call" "american" = Except.ok ((1 : ℚ), 'E') := by
  rfl

/-- C1 (amended): for every side string lowering to `"call"` and every style
string lowering to `"american"`, flag construction succeeds and returns
`(1.0, 'E')` — the American call is deliberately collapsed to European, so
the American `max(intrinsic, continuation)` rule is never applied to calls. -/
theorem americanCall_flags_eq (opt ty : String) (h1 : pyLower opt = "call")
    (h2 : pyLower ty = "american") :
    set_option_flags opt ty = Except.ok ((1 : ℚ), 'E') := by
  unfold set_option_flags
  rw [h1, h2]
  rfl

/-- C1 witness: the amended theorem applied at the concrete mixed-case input
`("Call", "AMERICAN")`. -/
theorem americanCall_flags_eq_witness :
    pyLower "Call" = "call" ∧ pyLower "AMERICAN" = "american" ∧
      set_option_flags "Call" "AMERICAN" = Except.ok ((1 : ℚ), 'E') :=
  ⟨rfl, rfl, americanCall_flags_eq "Call" "AMERICAN" rfl rfl⟩

/-! ## C3 — BondFFParameters type validation -/

/-- `Char.toUpper` never produces a lower-case letter, in particular never
`'f'` (the first letter of both `"forward"` and `"future"`). -/
theorem char_toUpper_ne_f (c : Char) : c.toUpper ≠ 'f' := by
  unfold Char.toUpper
  set m := c.toNat with hm
  by_cases h : m ≥ 97 ∧ m ≤ 122
  · rw [if_pos h]
    obtain ⟨h1, h2⟩ := h
    interval_cases m <;> decide
  · rw [if_neg h]
    intro hc
    subst hc
    exact h (by constructor <;> simp [hm])

/-- `str.capitalize` upper-cases the first character, so its result is never
one of the lower-case members of the tuple `('forward', 'future')`. -/
theorem pyCapitalize_ne_keywords (s : String) :
    pyCapitalize s ≠ "forward" ∧ pyCapitalize s ≠ "future" := by
  obtain ⟨l⟩ := s
  cases l with
  | nil => exact ⟨by decide, by decide⟩
  | cons ch cs =>
    constructor <;>
    · intro h
      have hd := congrArg String.data h
      simp [pyCapitalize, List.cons.injEq] at hd
      exact char_toUpper_ne_f ch hd.1

/-- C3: `BondFFParameters.__init__` raises `Invalid type` on every input —
including the recognized kinds `'forward'` / `'future'` in any letter case —
because `str.capitalize(ff_type)` (first letter upper-cased) is compared
against the all-lower-case tuple `('forward', 'future')`.  The claim (and the
intent visible in `BondFF.build`, which compares `self.type == 'forward'`) is
that recognized type values must be accepted. -/
theorem bondFFInit_always_raises (s : String) (c : ℚ) (n : ℕ) :
    bondFFInit s c n = Except.error (PyErr.exception "Invalid type") := by
  unfold bondFFInit
  rw [if_neg]
  rintro (h | h)
  · exact (pyCapitalize_ne_keywords s).1 h
  · exact (pyCapitalize_ne_keywords s).2 h

/-! ## Read-dependency facts for the individual loop bodies -/

/-- `zcbBody` reads its own lattice only at period `p + 1`. -/
theorem zcbBody_dep (face : ℚ) (sh : Grid) (rnp : ℚ × ℚ) (size : ℕ) :
    ∀ (p : ℕ) (g₁ g₂ : Grid) (s : ℕ), (∀ a b, p < b → g₁ a b = g₂ a b) →
      zcbBody face sh rnp size g₁ s p = zcbBody face sh rnp size g₂ s p := by
  intro p g₁ g₂ s h
  unfold zcbBody backProp Grid.val
  rw [h (s + 1) (p + 1) (by omega), h s (p + 1) (by omega)]

/-- `cfBody` reads its own lattice only at period `p + 1`. -/
theorem cfBody_dep (flag rate : ℚ) (sh : Grid) (rnp : ℚ × ℚ) (size : ℕ) :
    ∀ (p : ℕ) (g₁ g₂ : Grid) (s : ℕ), (∀ a b, p < b → g₁ a b = g₂ a b) →
      cfBody flag rate sh rnp size g₁ s p = cfBody flag rate sh rnp size g₂ s p := by
  intro p g₁ g₂ s h
  unfold cfBody backProp Grid.val
  rw [h (s + 1) (p + 1) (by omega), h s (p + 1) (by omega)]

/-- `swapBody` reads its own lattice only at period `p + 1`. -/
theorem swapBody_dep (fixed : ℚ) (sh : Grid) (rnp : ℚ × ℚ) (size : ℕ) :
    ∀ (p : ℕ) (g₁ g₂ : Grid) (s : ℕ), (∀ a b, p < b → g₁ a b = g₂ a b) →
      swapBody fixed sh rnp size g₁ s p = swapBody fixed sh rnp size g₂ s p := by
  intro p g₁ g₂ s h
  unfold swapBody backProp Grid.val
  rw [h (s + 1) (p + 1) (by omega), h s (p + 1) (by omega)]

/-- `swaptionBody` reads its own lattice only at period `p + 1`. -/
theorem swaptionBody_dep (sh swapl : Grid) (rnp : ℚ × ℚ) (size : ℕ) :
    ∀ (p : ℕ) (g₁ g₂ : Grid) (s : ℕ), (∀ a b, p < b → g₁ a b = g₂ a b) →
      swaptionBody sh swapl rnp size g₁ s p
        = swaptionBody sh swapl rnp size g₂ s p := by
  intro p g₁ g₂ s h
  unfold swaptionBody backProp Grid.val
  rw [h (s + 1) (p + 1) (by omega), h s (p + 1) (by omega)]

/-- `srBody` at period `p ≥ 1` reads its own lattice only at period `p - 1`. -/
theorem srBody_dep (u d : ℚ) :
    ∀ (p : ℕ), 1 ≤ p → ∀ (g₁ g₂ : Grid) (s : ℕ),
      (∀ a b, b < p → g₁ a b = g₂ a b) → srBody u d g₁ s p = srBody u d g₂ s p := by
  intro p hp g₁ g₂ s h
  unfold srBody Grid.val
  rw [h s (p - 1) (by omega), h (s - 1) (p - 1) (by omega)]

/-- `elemBody` at period `p ≥ 1` reads its own lattice only at period
`p - 1`. -/
theorem elemBody_dep (sh : Grid) (rnp : ℚ × ℚ) :
    ∀ (p : ℕ), 1 ≤ p → ∀ (g₁ g₂ : Grid) (s : ℕ),
      (∀ a b, b < p → g₁ a b = g₂ a b) →
      elemBody sh rnp g₁ s p = elemBody sh rnp g₂ s p := by
  intro p hp g₁ g₂ s h
  unfold elemBody Grid.val
  rw [h s (p - 1) (by omega), h (s - 1) (p - 1) (by omega)]

/-- Reading a cell known to hold `some x` yields `x`. -/
theorem Grid.val_eq {g : Grid} {s p : ℕ} {x : ℚ} (h : g s p = some x) :
    g.val s p = x := by
  unfold Grid.val
  rw [h]
  rfl

/-- `_back_prop` evaluated on two known successor cells. -/
theorem backProp_eq {g : Grid} {s p : ℕ} {x y : ℚ} (rnp : ℚ × ℚ)
    (hup : g (s + 1) (p + 1) = some x) (hdn : g s (p + 1) = some y) :
    backProp g s p rnp = x * rnp.1 + y * rnp.2 := by
  unfold backProp
  rw [Grid.val_eq hup, Grid.val_eq hdn]

/-- `srBody` at the boundary state `0`. -/
theorem srBody_zero (u d : ℚ) (g : Grid) (p : ℕ) :
    srBody u d g 0 p = d * g.val 0 (p - 1) := by
  unfold srBody
  rw [if_pos rfl]

/-- `srBody` away from the boundary state. -/
theorem srBody_pos (u d : ℚ) (g : Grid) (s p : ℕ) (h : s ≠ 0) :
    srBody u d g s p = u * g.val (s - 1) (p - 1) := by
  unfold srBody
  rw [if_neg h]

/-- `zcbBody` at the terminal period writes the face value. -/
theorem zcbBody_term (face : ℚ) (sh : Grid) (rnp : ℚ × ℚ) (size : ℕ)
    (g : Grid) (s : ℕ) : zcbBody face sh rnp size g s size = face := by
  unfold zcbBody
  rw [if_pos rfl]

/-- `zcbBody` at an interior period discounts the back-propagation. -/
theorem zcbBody_else (face : ℚ) (sh : Grid) (rnp : ℚ × ℚ) (size : ℕ)
    (g : Grid) (s p : ℕ) (h : p ≠ size) :
    zcbBody face sh rnp size g s p = backProp g s p rnp / (1 + sh.val s p) := by
  unfold zcbBody
  rw [if_neg h]

/-- Structural specification of the short-rate build: the seeded root, the
untouched region, and the fixpoint equation on the triangle. -/
theorem shortRateBuild_spec (r00 u d : ℚ) (n : ℕ) :
    shortRateBuild r00 u d n 0 0 = some r00 ∧
      (∀ a b, b = 0 ∨ n < b →
        shortRateBuild r00 u d n a b = (emptyGrid.set 0 0 r00) a b) ∧
      (∀ p, 1 ≤ p → p ≤ n → ∀ s, s ≤ p →
        shortRateBuild r00 u d n s p
          = some (srBody u d (shortRateBuild r00 u d n) s p)) := by
  obtain ⟨h0, h1⟩ :=
    fwLoop_spec (srBody u d) ascStates (srBody_dep u d) n (emptyGrid.set 0 0 r00)
  refine ⟨?_, h0, ?_⟩
  · calc shortRateBuild r00 u d n 0 0
        = (emptyGrid.set 0 0 r00) 0 0 := h0 0 0 (Or.inl rfl)
      _ = some r00 := by simp [Grid.set]
  · exact fun p hp1 hp2 s hs => h1 p hp1 hp2 s ((mem_ascStates s p).mpr hs)

/-- Structural specification of the ZCB build: the untouched region beyond
the horizon and the fixpoint equation on the triangle. -/
theorem zcbBuild_spec (face : ℚ) (sh : Grid) (rnp : ℚ × ℚ) (size : ℕ) :
    (∀ a b, size + 1 ≤ b → zcbBuild face sh rnp size a b = none) ∧
      (∀ p, p ≤ size → ∀ s, s ≤ p →
        zcbBuild face sh rnp size s p
          = some (zcbBody face sh rnp size (zcbBuild face sh rnp size) s p)) := by
  obtain ⟨h0, h1⟩ :=
    bwLoop_spec (zcbBody face sh rnp size) descStates
      (zcbBody_dep face sh rnp size) (size + 1) emptyGrid
  exact ⟨fun a b h => h0 a b h,
    fun p hp s hs => h1 p (by omega) s ((mem_descStates s p).mpr hs)⟩

/-- On a flat parameterization (`u = d = 1`, initial rate `r`) every node of
the short-rate lattice inside the triangle holds `r`. -/
theorem shortRateBuild_flat (r : ℚ) (n : ℕ) :
    ∀ p, p ≤ n → ∀ s, s ≤ p → shortRateBuild r 1 1 n s p = some r := by
  obtain ⟨hroot, hoff, hfix⟩ := shortRateBuild_spec r 1 1 n
  intro p
  induction p with
  | zero =>
    intro _ s hs
    interval_cases s
    exact hroot
  | succ q ihq =>
    intro hq s hs
    rw [hfix (q + 1) (by omega) hq s hs]
    by_cases hs0 : s = 0
    · subst hs0
      rw [srBody_zero]
      simp only [Nat.add_sub_cancel]
      rw [Grid.val_eq (ihq (by omega) 0 (Nat.zero_le q))]
      norm_num
    · rw [srBody_pos 1 1 _ s (q + 1) hs0]
      simp only [Nat.add_sub_cancel]
      rw [Grid.val_eq (ihq (by omega) (s - 1) (by omega))]
      norm_num

/-! ## C2 — elementary-price boundary recursion -/

/-- C2: at the failing input — flat zero short rate (initial rate `0`,
up/down multipliers `1`), risk-neutral pair `(3/5, 2/5)`, horizon `1` — the
elementary-price build writes `q·P(0,0)/(1+r) = 3/5` into the boundary cell
`(state 0, period 1)`: the single predecessor term at state `0` carries the
up probability `rnp[0] = 3/5`, not the down-move probability `1 − q = 2/5`
that the claim (the textbook Arrow-Debreu forward recursion) requires.  Both
period-1 state prices come out `3/5`, so they sum to `6/5` instead of the
correct discounted total `1`. -/
theorem elemBuild_boundary_uses_up_probability :
    elemBuild (shortRateBuild 0 1 1 1) (3/5, 2/5) 1 0 1 = some (3/5) ∧
      elemBuild (shortRateBuild 0 1 1 1) (3/5, 2/5) 1 1 1 = some (3/5) ∧
      periodSum (elemBuild (shortRateBuild 0 1 1 1) (3/5, 2/5) 1) 1 = 6/5 := by
  refine ⟨?_, ?_, ?_⟩ <;>
  · norm_num [elemBuild, periodSum, buildLoop, stateLoop, ascFrom1, ascStates,
      elemBody, Grid.set, Grid.val, shortRateBuild, srBody, emptyGrid,
      List.range', List.range_succ, List.range_zero]

/-! ## C6 — zero-coupon bond root under a flat short rate -/

/-- Every triangle cell of the ZCB lattice built over a flat short rate `r`
holds the discounted face value `F / (1+r)^(N-p)`. -/
theorem zcbBuild_flat_cells (F r : ℚ) (N : ℕ) (q₁ q₂ : ℚ)
    (hq : q₁ + q₂ = 1) (hr : 1 + r ≠ 0) :
    ∀ k p, p + k = N → ∀ s, s ≤ p →
      zcbBuild F (shortRateBuild r 1 1 N) (q₁, q₂) N s p
        = some (F / (1 + r) ^ k) := by
  obtain ⟨hoff, hfix⟩ := zcbBuild_spec F (shortRateBuild r 1 1 N) (q₁, q₂) N
  intro k
  induction k with
  | zero =>
    intro p hp s hs
    have hpN : p = N := by omega
    have hs' : s ≤ N := by omega
    rw [hpN, hfix N le_rfl s hs', zcbBody_term]
    norm_num
  | succ k ihk =>
    intro p hp s hs
    rw [hfix p (by omega) s hs,
      zcbBody_else F (shortRateBuild r 1 1 N) (q₁, q₂) N _ s p (by omega),
      backProp_eq (q₁, q₂) (ihk (p + 1) (by omega) (s + 1) (by omega))
        (ihk (p + 1) (by omega) s (by omega)),
      Grid.val_eq (shortRateBuild_flat r N p (by omega) s hs)]
    congr 1
    have hsum : F / (1 + r) ^ k * (q₁, q₂).1 + F / (1 + r) ^ k * (q₁, q₂).2
        = F / (1 + r) ^ k := by
      show F / (1 + r) ^ k * q₁ + F / (1 + r) ^ k * q₂ = F / (1 + r) ^ k
      rw [← mul_add, hq, mul_one]
    rw [hsum, div_div, ← pow_succ]

/-- C6: over a flat short-rate lattice with every node equal to `r`
(multipliers `1`, initial rate `r`), any probability pair summing to `1`
yields the closed-form root value `F / (1+r)^N` for the zero-coupon bond
lattice of face `F` and horizon `N`. -/
theorem zcb_flat_root (F r : ℚ) (N : ℕ) (q₁ q₂ : ℚ)
    (hq : q₁ + q₂ = 1) (hr : 1 + r ≠ 0) :
    zcbBuild F (shortRateBuild r 1 1 N) (q₁, q₂) N 0 0
      = some (F / (1 + r) ^ N) :=
  zcbBuild_flat_cells F r N q₁ q₂ hq hr N 0 (by omega) 0 le_rfl

/-- C6 witness: the closed-form root theorem applied at
`F = 100, r = 1/20, N = 2, (q₁, q₂) = (1/2, 1/2)`. -/
theorem zcb_flat_root_witness :
    (1 : ℚ)/2 + 1/2 = 1 ∧ (1 : ℚ) + 1/20 ≠ 0 ∧
      zcbBuild 100 (shortRateBuild (1/20) 1 1 2) (1/2, 1/2) 2 0 0
        = some (100 / (1 + 1/20) ^ 2) :=
  ⟨by norm_num, by norm_num,
    zcb_flat_root 100 (1/20) 2 (1/2) (1/2) (by norm_num) (by norm_num)⟩

/-! ## C8 — arrears horizon reduction for caplets/floorlets and swaps -/

/-- `cfBody` at the terminal (already reduced) period. -/
theorem cfBody_term (flag rate : ℚ) (sh : Grid) (rnp : ℚ × ℚ) (size : ℕ)
    (g : Grid) (s : ℕ) :
    cfBody flag rate sh rnp size g s size
      = flag * (sh.val s size - rate) / (1 + sh.val s size) := by
  unfold cfBody
  rw [if_pos rfl]

/-- `cfBody` at an interior period. -/
theorem cfBody_else (flag rate : ℚ) (sh : Grid) (rnp : ℚ × ℚ) (size : ℕ)
    (g : Grid) (s p : ℕ) (h : p ≠ size) :
    cfBody flag rate sh rnp size g s p
      = backProp g s p rnp / (1 + sh.val s p) := by
  unfold cfBody
  rw [if_neg h]

/-- `swapBody` at the terminal (already reduced) period. -/
theorem swapBody_term (fixed : ℚ) (sh : Grid) (rnp : ℚ × ℚ) (size : ℕ)
    (g : Grid) (s : ℕ) :
    swapBody fixed sh rnp size g s size
      = (sh.val s size - fixed) / (1 + sh.val s size) := by
  unfold swapBody
  rw [if_pos rfl]

/-- `swapBody` at an interior period. -/
theorem swapBody_else (fixed : ℚ) (sh : Grid) (rnp : ℚ × ℚ) (size : ℕ)
    (g : Grid) (s p : ℕ) (h : p ≠ size) :
    swapBody fixed sh rnp size g s p
      = ((sh.val s p - fixed) + backProp g s p rnp) / (1 + sh.val s p) := by
  unfold swapBody
  rw [if_neg h]

/-- Structural specification of the caplet/floorlet build for a contractual
horizon `m + 1` (so reduced build horizon `m`). -/
theorem capFloorLetBuild_spec (flag rate : ℚ) (sh : Grid) (rnp : ℚ × ℚ)
    (m : ℕ) :
    (∀ a b, m + 1 ≤ b → capFloorLetBuild flag rate sh rnp (m + 1) a b = none) ∧
      (∀ p, p ≤ m → ∀ s, s ≤ p →
        capFloorLetBuild flag rate sh rnp (m + 1) s p
          = some (cfBody flag rate sh rnp m
              (capFloorLetBuild flag rate sh rnp (m + 1)) s p)) := by
  obtain ⟨h0, h1⟩ :=
    bwLoop_spec (cfBody flag rate sh rnp m) descStates
      (cfBody_dep flag rate sh rnp m) (m + 1) emptyGrid
  exact ⟨fun a b h => h0 a b h,
    fun p hp s hs => h1 p (by omega) s ((mem_descStates s p).mpr hs)⟩

/-- Structural specification of the swap build for a contractual horizon
`m + 1` (so reduced build horizon `m`). -/
theorem swapBuild_spec (fixed : ℚ) (sh : Grid) (rnp : ℚ × ℚ) (m : ℕ) :
    (∀ a b, m + 1 ≤ b → swapBuild fixed sh rnp (m + 1) a b = none) ∧
      (∀ p, p ≤ m → ∀ s, s ≤ p →
        swapBuild fixed sh rnp (m + 1) s p
          = some (swapBody fixed sh rnp m (swapBuild fixed sh rnp (m + 1)) s p)) := by
  obtain ⟨h0, h1⟩ :=
    bwLoop_spec (swapBody fixed sh rnp m) descStates
      (swapBody_dep fixed sh rnp m) (m + 1) emptyGrid
  exact ⟨fun a b h => h0 a b h,
    fun p hp s hs => h1 p (by omega) s ((mem_descStates s p).mpr hs)⟩

/-- C8: under the arrears convention (`self.size -= 1`), a caplet/floorlet or
swap with contractual horizon `N ≥ 1` is built on horizon `N - 1`: no cell at
any period `≥ N` is ever written (those cells keep the allocation filler),
the terminal payoff rule is applied at period `N - 1`, and backward induction
covers the interior periods `p < N - 1`. -/
theorem arrears_horizon (flag rate fixed : ℚ) (sh : Grid) (rnp : ℚ × ℚ)
    (N : ℕ) (hN : 1 ≤ N) :
    (∀ s p, N ≤ p → capFloorLetBuild flag rate sh rnp N s p = none) ∧
      (∀ s, s ≤ N - 1 → capFloorLetBuild flag rate sh rnp N s (N - 1)
        = some (flag * (sh.val s (N - 1) - rate) / (1 + sh.val s (N - 1)))) ∧
      (∀ s p, s ≤ p → p + 1 < N → capFloorLetBuild flag rate sh rnp N s p
        = some (backProp (capFloorLetBuild flag rate sh rnp N) s p rnp
            / (1 + sh.val s p))) ∧
      (∀ s p, N ≤ p → swapBuild fixed sh rnp N s p = none) ∧
      (∀ s, s ≤ N - 1 → swapBuild fixed sh rnp N s (N - 1)
        = some ((sh.val s (N - 1) - fixed) / (1 + sh.val s (N - 1)))) ∧
      (∀ s p, s ≤ p → p + 1 < N → swapBuild fixed sh rnp N s p
        = some (((sh.val s p - fixed) + backProp (swapBuild fixed sh rnp N) s p rnp)
            / (1 + sh.val s p))) := by
  obtain ⟨m, rfl⟩ : ∃ m, N = m + 1 := ⟨N - 1, by omega⟩
  obtain ⟨hcf0, hcf1⟩ := capFloorLetBuild_spec flag rate sh rnp m
  obtain ⟨hsw0, hsw1⟩ := swapBuild_spec fixed sh rnp m
  simp only [Nat.add_sub_cancel]
  refine ⟨fun s p hp => hcf0 s p hp, ?_, ?_, fun s p hp => hsw0 s p hp, ?_, ?_⟩
  · intro s hs
    rw [hcf1 m le_rfl s hs, cfBody_term]
  · intro s p hsp hp
    rw [hcf1 p (by omega) s hsp, cfBody_else flag rate sh rnp m _ s p (by omega)]
  · intro s hs
    rw [hsw1 m le_rfl s hs, swapBody_term]
  · intro s p hsp hp
    rw [hsw1 p (by omega) s hsp, swapBody_else fixed sh rnp m _ s p (by omega)]

/-- C8 witness: the arrears theorem applied at `N = 2` over the unbuilt
short-rate grid, projected at concrete cells. -/
theorem arrears_horizon_witness :
    (1 : ℕ) ≤ 2 ∧
      capFloorLetBuild 1 (1/50) emptyGrid (1/2, 1/2) 2 0 2 = none ∧
      swapBuild (1/20) emptyGrid (1/2, 1/2) 2 1 3 = none ∧
      capFloorLetBuild 1 (1/50) emptyGrid (1/2, 1/2) 2 0 1
        = some (1 * (Grid.val emptyGrid 0 1 - 1/50)
            / (1 + Grid.val emptyGrid 0 1)) ∧
      swapBuild (1/20) emptyGrid (1/2, 1/2) 2 0 1
        = some ((Grid.val emptyGrid 0 1 - 1/20) / (1 + Grid.val emptyGrid 0 1)) := by
  obtain ⟨h1, h2, h3, h4, h5, h6⟩ :=
    arrears_horizon 1 (1/50) (1/20) emptyGrid (1/2, 1/2) 2 (by norm_num)
  refine ⟨by norm_num, h1 0 2 le_rfl, h4 1 3 (by norm_num), ?_, ?_⟩
  · simpa using h2 0 (by norm_num)
  · simpa using h5 0 (by norm_num)

/-! ## C9 — triangle invariant of every build -/

/-- A backward build over `descList (H+1)` with descending state lists never
touches a cell outside the triangle `state ≤ period ≤ H`. -/
theorem bwBuild_off_triangle (body : Grid → ℕ → ℕ → ℚ) (H : ℕ) (a b : ℕ)
    (h : b < a ∨ H < b) :
    buildLoop body (descList (H + 1)) descStates emptyGrid a b = none := by
  have hpre : ∀ p ∈ descList (H + 1), b ≠ p ∨ a ∉ descStates p := by
    intro p hp
    rw [mem_descList] at hp
    rcases h with h | h
    · by_cases hbp : b = p
      · right
        rw [mem_descStates]
        omega
      · exact Or.inl hbp
    · left
      omega
  rw [buildLoop_preserve body descStates (descList (H + 1)) emptyGrid a b hpre]
  rfl

/-- A forward build over `ascFrom1 n` with ascending state lists never
touches a cell outside the triangle `state ≤ period ≤ n`. -/
theorem fwBuild_off_triangle (body : Grid → ℕ → ℕ → ℚ) (n : ℕ) (g0 : Grid)
    (a b : ℕ) (h : b < a ∨ n < b) :
    buildLoop body (ascFrom1 n) ascStates g0 a b = g0 a b := by
  apply buildLoop_preserve
  intro p hp
  rw [mem_ascFrom1] at hp
  rcases h with h | h
  · by_cases hbp : b = p
    · right
      rw [mem_ascStates]
      omega
    · exact Or.inl hbp
  · by_cases hbp : b = p
    · right
      rw [mem_ascStates]
      omega
    · exact Or.inl hbp

/-- A seeded cell `(0,0)` is off-triangle-invisible: outside the triangle the
seed-updated grid still shows the underlying filler. -/
theorem set_root_off (g : Grid) (v : ℚ) (a b : ℕ) (h : b < a ∨ 0 < b) :
    (g.set 0 0 v) a b = g a b := by
  unfold Grid.set
  rw [if_neg]
  rintro ⟨rfl, rfl⟩
  omega

/-- The ZCB build reads its short-rate input only inside the triangle
`state ≤ period ≤ H`. -/
theorem zcbBuild_congr (face : ℚ) (rnp : ℚ × ℚ) (H : ℕ) (sh₁ sh₂ : Grid)
    (h : ∀ s p, s ≤ p → p ≤ H → sh₁ s p = sh₂ s p) :
    zcbBuild face sh₁ rnp H = zcbBuild face sh₂ rnp H := by
  unfold zcbBuild
  apply buildLoop_congr
  intro g' s p hp hs
  rw [mem_descList] at hp
  rw [mem_descStates] at hs
  have hv : Grid.val sh₁ s p = Grid.val sh₂ s p := by
    unfold Grid.val
    rw [h s p hs (by omega)]
  unfold zcbBody
  rw [hv]

/-- The caplet/floorlet build reads its short-rate input only inside the
triangle `state ≤ period ≤ N - 1`. -/
theorem capFloorLetBuild_congr (flag rate : ℚ) (rnp : ℚ × ℚ) (N : ℕ)
    (sh₁ sh₂ : Grid) (h : ∀ s p, s ≤ p → p + 1 ≤ N → sh₁ s p = sh₂ s p) :
    capFloorLetBuild flag rate sh₁ rnp N
      = capFloorLetBuild flag rate sh₂ rnp N := by
  cases N with
  | zero => rfl
  | succ m =>
    unfold capFloorLetBuild
    apply buildLoop_congr
    intro g' s p hp hs
    rw [mem_descList] at hp
    rw [mem_descStates] at hs
    have hv : Grid.val sh₁ s p = Grid.val sh₂ s p := by
      unfold Grid.val
      rw [h s p hs (by omega)]
    unfold cfBody
    rw [hv]

/-- The swap build reads its short-rate input only inside the triangle
`state ≤ period ≤ N - 1`. -/
theorem swapBuild_congr (fixed : ℚ) (rnp : ℚ × ℚ) (N : ℕ) (sh₁ sh₂ : Grid)
    (h : ∀ s p, s ≤ p → p + 1 ≤ N → sh₁ s p = sh₂ s p) :
    swapBuild fixed sh₁ rnp N = swapBuild fixed sh₂ rnp N := by
  cases N with
  | zero => rfl
  | succ m =>
    unfold swapBuild
    apply buildLoop_congr
    intro g' s p hp hs
    rw [mem_descList] at hp
    rw [mem_descStates] at hs
    have hv : Grid.val sh₁ s p = Grid.val sh₂ s p := by
      unfold Grid.val
      rw [h s p hs (by omega)]
    unfold swapBody
    rw [hv]

/-- The swaption build reads its short-rate and swap inputs only inside the
triangle `state ≤ period ≤ H`. -/
theorem swaptionBuild_congr (rnp : ℚ × ℚ) (H : ℕ) (sh₁ sh₂ sw₁ sw₂ : Grid)
    (hsh : ∀ s p, s ≤ p → p ≤ H → sh₁ s p = sh₂ s p)
    (hsw : ∀ s p, s ≤ p → p ≤ H → sw₁ s p = sw₂ s p) :
    swaptionBuild sh₁ sw₁ rnp H = swaptionBuild sh₂ sw₂ rnp H := by
  unfold swaptionBuild
  apply buildLoop_congr
  intro g' s p hp hs
  rw [mem_descList] at hp
  rw [mem_descStates] at hs
  have hv1 : Grid.val sh₁ s p = Grid.val sh₂ s p := by
    unfold Grid.val
    rw [hsh s p hs (by omega)]
  have hv2 : Grid.val sw₁ s p = Grid.val sw₂ s p := by
    unfold Grid.val
    rw [hsw s p hs (by omega)]
  unfold swaptionBody
  rw [hv1, hv2]

/-- The elementary-price build reads its short-rate input only inside the
triangle `state ≤ period ≤ n`. -/
theorem elemBuild_congr (rnp : ℚ × ℚ) (n : ℕ) (sh₁ sh₂ : Grid)
    (h : ∀ s p, s ≤ p → p ≤ n → sh₁ s p = sh₂ s p) :
    elemBuild sh₁ rnp n = elemBuild sh₂ rnp n := by
  unfold elemBuild
  apply buildLoop_congr
  intro g' s p hp hs
  rw [mem_ascFrom1] at hp
  rw [mem_ascStates] at hs
  unfold elemBody
  by_cases hs0 : s = 0
  · subst hs0
    rw [if_pos rfl, if_pos rfl]
    have hv : Grid.val sh₁ 0 (p - 1) = Grid.val sh₂ 0 (p - 1) := by
      unfold Grid.val
      rw [h 0 (p - 1) (by omega) (by omega)]
    rw [hv]
  · by_cases hsp : s = p
    · rw [if_neg hs0, if_neg hs0, if_pos hsp, if_pos hsp]
      have hv : Grid.val sh₁ (s - 1) (p - 1) = Grid.val sh₂ (s - 1) (p - 1) := by
        unfold Grid.val
        rw [h (s - 1) (p - 1) (by omega) (by omega)]
      rw [hv]
    · rw [if_neg hs0, if_neg hs0, if_neg hsp, if_neg hsp]
      have hv1 : Grid.val sh₁ (s - 1) (p - 1) = Grid.val sh₂ (s - 1) (p - 1) := by
        unfold Grid.val
        rw [h (s - 1) (p - 1) (by omega) (by omega)]
      have hv2 : Grid.val sh₁ s (p - 1) = Grid.val sh₂ s (p - 1) := by
        unfold Grid.val
        rw [h s (p - 1) (by omega) (by omega)]
      rw [hv1, hv2]

/-- C9: every lattice build (short-rate, share, zero-coupon bond,
caplet/floorlet, swap, swaption, elementary prices) writes only cells with
`state ≤ period ≤ horizon` — after a build, every off-triangle cell still
holds its allocation value (`''` ↦ `none` for the `lattice.py` builds,
`0` ↦ `some 0` for the `options.py` share lattice) — and reads its input
lattices only inside the corresponding triangle: two inputs agreeing on the
triangle produce identical builds. -/
theorem builds_triangle_invariant :
    (∀ r00 u d n a b, b < a ∨ n < b → shortRateBuild r00 u d n a b = none) ∧
      (∀ s0 u d n a b, b < a ∨ n < b → sharesBuild s0 u d n a b = some 0) ∧
      (∀ face sh rnp H a b, b < a ∨ H < b → zcbBuild face sh rnp H a b = none) ∧
      (∀ flag rate sh rnp N a b, b < a ∨ N < b →
        capFloorLetBuild flag rate sh rnp N a b = none) ∧
      (∀ fixed sh rnp N a b, b < a ∨ N < b → swapBuild fixed sh rnp N a b = none) ∧
      (∀ sh sw rnp H a b, b < a ∨ H < b → swaptionBuild sh sw rnp H a b = none) ∧
      (∀ sh rnp n a b, b < a ∨ n < b → elemBuild sh rnp n a b = none) ∧
      (∀ face rnp H sh₁ sh₂, (∀ s p, s ≤ p → p ≤ H → sh₁ s p = sh₂ s p) →
        zcbBuild face sh₁ rnp H = zcbBuild face sh₂ rnp H) ∧
      (∀ flag rate rnp N sh₁ sh₂,
        (∀ s p, s ≤ p → p + 1 ≤ N → sh₁ s p = sh₂ s p) →
        capFloorLetBuild flag rate sh₁ rnp N
          = capFloorLetBuild flag rate sh₂ rnp N) ∧
      (∀ fixed rnp N sh₁ sh₂, (∀ s p, s ≤ p → p + 1 ≤ N → sh₁ s p = sh₂ s p) →
        swapBuild fixed sh₁ rnp N = swapBuild fixed sh₂ rnp N) ∧
      (∀ rnp H sh₁ sh₂ sw₁ sw₂, (∀ s p, s ≤ p → p ≤ H → sh₁ s p = sh₂ s p) →
        (∀ s p, s ≤ p → p ≤ H → sw₁ s p = sw₂ s p) →
        swaptionBuild sh₁ sw₁ rnp H = swaptionBuild sh₂ sw₂ rnp H) ∧
      (∀ rnp n sh₁ sh₂, (∀ s p, s ≤ p → p ≤ n → sh₁ s p = sh₂ s p) →
        elemBuild sh₁ rnp n = elemBuild sh₂ rnp n) := by
  refine ⟨?_, ?_, ?_, ?_, ?_, ?_, ?_, zcbBuild_congr, capFloorLetBuild_congr,
    swapBuild_congr, swaptionBuild_congr, elemBuild_congr⟩
  · intro r00 u d n a b hab
    calc shortRateBuild r00 u d n a b
        = (emptyGrid.set 0 0 r00) a b := fwBuild_off_triangle _ n _ a b hab
      _ = emptyGrid a b := set_root_off emptyGrid r00 a b
          (by rcases hab with h | h
              · exact Or.inl h
              · exact Or.inr (by omega))
      _ = none := rfl
  · intro s0 u d n a b hab
    calc sharesBuild s0 u d n a b
        = (zeroGrid.set 0 0 s0) a b := fwBuild_off_triangle _ n _ a b hab
      _ = zeroGrid a b := set_root_off zeroGrid s0 a b
          (by rcases hab with h | h
              · exact Or.inl h
              · exact Or.inr (by omega))
      _ = some 0 := rfl
  · intro face sh rnp H a b hab
    exact bwBuild_off_triangle _ H a b hab
  · intro flag rate sh rnp N a b hab
    cases N with
    | zero => rfl
    | succ m =>
      exact bwBuild_off_triangle _ m a b
        (by rcases hab with h | h
            · exact Or.inl h
            · exact Or.inr (by omega))
  · intro fixed sh rnp N a b hab
    cases N with
    | zero => rfl
    | succ m =>
      exact bwBuild_off_triangle _ m a b
        (by rcases hab with h | h
            · exact Or.inl h
            · exact Or.inr (by omega))
  · intro sh sw rnp H a b hab
    exact bwBuild_off_triangle _ H a b hab
  · intro sh rnp n a b hab
    calc elemBuild sh rnp n a b
        = (emptyGrid.set 0 0 1) a b := fwBuild_off_triangle _ n _ a b hab
      _ = emptyGrid a b := set_root_off emptyGrid 1 a b
          (by rcases hab with h | h
              · exact Or.inl h
              · exact Or.inr (by omega))
      _ = none := rfl

/-- C9 witness: the invariant theorem projected at concrete builds and
off-triangle cells, with the triangle-agreement hypotheses discharged on a
pair of identical input grids. -/
theorem builds_triangle_invariant_witness :
    shortRateBuild (1/20) (11/10) (9/10) 3 2 1 = none ∧
      sharesBuild 100 2 (1/2) 3 1 0 = some 0 ∧
      zcbBuild 100 emptyGrid (1/2, 1/2) 2 0 3 = none ∧
      elemBuild emptyGrid (1/2, 1/2) 2 = elemBuild emptyGrid (1/2, 1/2) 2 := by
  obtain ⟨h1, h2, h3, _, _, _, _, _, _, _, _, h12⟩ := builds_triangle_invariant
  exact ⟨h1 (1/20) (11/10) (9/10) 3 2 1 (Or.inl (by norm_num)),
    h2 100 2 (1/2) 3 1 0 (Or.inl (by norm_num)),
    h3 100 emptyGrid (1/2, 1/2) 2 0 3 (Or.inr (by norm_num)),
    h12 (1/2, 1/2) 2 emptyGrid emptyGrid (fun _ _ _ _ => rfl)⟩

/-! ## C10 — `ElementaryPrices.discount` accumulates across calls -/

/-- Pulling the start value out of an additive left fold. -/
theorem foldl_add_shift (f : ℕ → ℚ) :
    ∀ (l : List ℕ) (c : ℚ),
      l.foldl (fun a x => a + f x) c = c + l.foldl (fun a x => a + f x) 0 := by
  intro l
  induction l with
  | nil => intro c; simp
  | cons x xs ih =>
    intro c
    simp only [List.foldl_cons]
    rw [ih (c + f x), ih (0 + f x)]
    ring

/-- One `discount` period-iteration leaves the prices of other periods
alone. -/
theorem discountStep_other (st : ElemState) (q p : ℕ) (hne : p ≠ q) :
    (discountStep st q).price p = st.price p := by
  unfold discountStep
  simp only [updFn]
  rw [if_neg hne]

/-- One `discount` period-iteration never touches the lattice, size, base or
built flag. -/
theorem discountStep_fields (st : ElemState) (q : ℕ) :
    (discountStep st q).lattice = st.lattice ∧
      (discountStep st q).size = st.size ∧
      (discountStep st q).base = st.base ∧
      (discountStep st q).built = st.built := by
  unfold discountStep
  exact ⟨rfl, rfl, rfl, rfl⟩

/-- One `discount` period-iteration adds the period's lattice sum to the
persistent price entry and then multiplies by the base. -/
theorem discountStep_price (st : ElemState) (q : ℕ) :
    (discountStep st q).price q
      = (st.price q + periodSum st.lattice q) * st.base := by
  unfold discountStep
  simp only [updFn, if_pos rfl]
  congr 1
  rw [periodSum, foldl_add_shift (fun state => st.lattice.val state q)
    (List.range (q + 1)) (st.price q)]
  simp

/-- The full `discount` loop: fields other than `price`/`rates` are
unchanged, untouched periods keep their price, and each visited period `p`
ends at `(price p + Σ_s lattice[s][p]) * base`. -/
theorem discountLoop_spec :
    ∀ (l : List ℕ), l.Nodup → ∀ (st : ElemState),
      ((l.foldl discountStep st).lattice = st.lattice ∧
        (l.foldl discountStep st).size = st.size ∧
        (l.foldl discountStep st).base = st.base ∧
        (l.foldl discountStep st).built = st.built) ∧
      (∀ p, p ∉ l → (l.foldl discountStep st).price p = st.price p) ∧
      (∀ p, p ∈ l → (l.foldl discountStep st).price p
        = (st.price p + periodSum st.lattice p) * st.base) := by
  intro l
  induction l with
  | nil =>
    intro _ st
    exact ⟨⟨rfl, rfl, rfl, rfl⟩, fun p _ => rfl,
      fun p hp => absurd hp (List.not_mem_nil p)⟩
  | cons a rest ih =>
    intro hnd st
    have hna : a ∉ rest := (List.nodup_cons.mp hnd).1
    obtain ⟨⟨hl, hs, hb, hbu⟩, hout, hin⟩ :=
      ih (List.nodup_cons.mp hnd).2 (discountStep st a)
    obtain ⟨hl1, hs1, hb1, hbu1⟩ := discountStep_fields st a
    simp only [List.foldl_cons]
    refine ⟨⟨hl.trans hl1, hs.trans hs1, hb.trans hb1, hbu.trans hbu1⟩, ?_, ?_⟩
    · intro p hp
      have hpa : p ≠ a := fun h => hp (h ▸ List.mem_cons_self a rest)
      have hpr : p ∉ rest := fun h => hp (List.mem_cons_of_mem a h)
      rw [hout p hpr, discountStep_other st a p hpa]
    · intro p hp
      rcases List.mem_cons.mp hp with rfl | hpr
      · rw [hout p hna, discountStep_price st p]
      · have hpa : p ≠ a := fun h => hna (h ▸ hpr)
        rw [hin p hpr, discountStep_other st a p hpa, hl1, hb1]

/-- C10 (amended): starting from a freshly built `ElementaryPrices` object
(price array all `0.`), the first `discount` call sets
`price[p] = (Σ_s lattice[s][p]) * base` and the second call — because the
code accumulates with `+=` into the persistent array and then applies
`*= base` to the accumulated total — sets `price[p] = (base + 1) ×` the first
value (not `2 ×` it); the lattice itself is untouched by both calls. -/
theorem discount_second_call_scales (shRate : Grid) (rnp : ℚ × ℚ) (size : ℕ)
    (base : ℚ) (p : ℕ) (h1 : 1 ≤ p) (h2 : p ≤ size) :
    ∃ st1 st2,
      (elemStateAfterBuild shRate rnp size base).discount = Except.ok st1 ∧
        st1.discount = Except.ok st2 ∧
        st1.price p = periodSum (elemBuild shRate rnp size) p * base ∧
        st2.price p = (base + 1) * st1.price p ∧
        st1.lattice = elemBuild shRate rnp size ∧
        st2.lattice = elemBuild shRate rnp size := by
  have hnd : (ascFrom1 size).Nodup := by
    apply List.nodup_range'
    norm_num
  have hmem : p ∈ ascFrom1 size := (mem_ascFrom1 p size).mpr ⟨h1, h2⟩
  obtain ⟨⟨hl1, hs1, hb1, hbu1⟩, _, hin1⟩ :=
    discountLoop_spec (ascFrom1 size) hnd (elemStateAfterBuild shRate rnp size base)
  obtain ⟨⟨hl2, hs2, hb2, hbu2⟩, _, hin2⟩ :=
    discountLoop_spec (ascFrom1 size) hnd
      ((ascFrom1 size).foldl discountStep (elemStateAfterBuild shRate rnp size base))
  have hL : ((ascFrom1 size).foldl discountStep
      (elemStateAfterBuild shRate rnp size base)).lattice
      = elemBuild shRate rnp size := hl1.trans rfl
  have hB : ((ascFrom1 size).foldl discountStep
      (elemStateAfterBuild shRate rnp size base)).base = base := hb1.trans rfl
  have hP : ((ascFrom1 size).foldl discountStep
      (elemStateAfterBuild shRate rnp size base)).price p
      = periodSum (elemBuild shRate rnp size) p * base := by
    rw [hin1 p hmem]
    simp [elemStateAfterBuild]
  refine ⟨(ascFrom1 size).foldl discountStep
      (elemStateAfterBuild shRate rnp size base),
    (ascFrom1 size).foldl discountStep
      ((ascFrom1 size).foldl discountStep (elemStateAfterBuild shRate rnp size base)),
    ?_, ?_, hP, ?_, hL, hl2.trans hL⟩
  · unfold ElemState.discount
    rw [if_pos (show (elemStateAfterBuild shRate rnp size base).built = true
      from rfl)]
    rfl
  · unfold ElemState.discount
    have hbt : ((ascFrom1 size).foldl discountStep
        (elemStateAfterBuild shRate rnp size base)).built = true := hbu1.trans rfl
    rw [if_pos hbt]
    have hsz : ((ascFrom1 size).foldl discountStep
        (elemStateAfterBuild shRate rnp size base)).size = size := hs1.trans rfl
    rw [hsz]
  · rw [hin2 p hmem, hP, hL, hB]
    ring

/-- C10 counterexample: on the concrete built elementary lattice (flat zero
short rate, horizon 1, base 100, state prices 1/2 and 1/2 at period 1) the
first `discount` call produces `price[1] = 100`, but the second call — with
no intervening operation — produces `price[1] = (100 + 1) * 100 = 10100`,
not the `2 × 100 = 200` the claim asserts (the accumulated total is
re-multiplied by the base). -/
theorem discount_second_call_not_double :
    Except.map (fun st => st.price 1)
        (Except.bind (elemStateAfterBuild emptyGrid (1/2, 1/2) 1 100).discount
          ElemState.discount) = Except.ok 10100 ∧
      Except.map (fun st => st.price 1)
          (elemStateAfterBuild emptyGrid (1/2, 1/2) 1 100).discount
        = Except.ok 100 ∧
      (10100 : ℚ) ≠ 2 * 100 := by
  refine ⟨?_, ?_, by norm_num⟩ <;>
  · norm_num [ElemState.discount, discountStep, elemStateAfterBuild, updFn,
      ascFrom1, List.range', elemBuild, buildLoop, stateLoop, ascStates,
      elemBody, Grid.set, Grid.val, emptyGrid, List.range_succ,
      List.range_zero, Except.bind, Except.map]

/-- C10 witness: the amended accumulation theorem applied at the concrete
input of the counterexample. -/
theorem discount_second_call_scales_witness :
    (1 : ℕ) ≤ 1 ∧ (1 : ℕ) ≤ 1 ∧
      (∃ st1 st2,
        (elemStateAfterBuild emptyGrid (1/2, 1/2) 1 100).discount
            = Except.ok st1 ∧
          st1.discount = Except.ok st2 ∧
          st1.price 1 = periodSum (elemBuild emptyGrid (1/2, 1/2) 1) 1 * 100 ∧
          st2.price 1 = (100 + 1) * st1.price 1 ∧
          st1.lattice = elemBuild emptyGrid (1/2, 1/2) 1 ∧
          st2.lattice = elemBuild emptyGrid (1/2, 1/2) 1) :=
  ⟨le_rfl, le_rfl,
    discount_second_call_scales emptyGrid (1/2, 1/2) 1 100 1 le_rfl le_rfl⟩

/-! ## C4 — raw Python indexing semantics of `lattice.Lattice` -/

/-- Success of one raw Python list index is exactly `-len ≤ i < len`. -/
theorem pyIdx_ok_iff {α : Type} (l : List α) (i : ℤ) :
    (∃ a, pyIdx l i = Except.ok a) ↔
      (-(l.length : ℤ) ≤ i ∧ i < (l.length : ℤ)) := by
  unfold pyIdx
  by_cases hi : i < 0
  · simp only [if_pos hi]
    by_cases h : 0 ≤ i + (l.length : ℤ) ∧ (i + (l.length : ℤ)).toNat < l.length
    · rw [dif_pos h]
      constructor
      · intro _
        omega
      · intro _
        exact ⟨_, rfl⟩
    · rw [dif_neg h]
      constructor
      · rintro ⟨a, ha⟩
        exact absurd ha (by simp)
      · intro hr
        exact absurd (by omega : 0 ≤ i + (l.length : ℤ) ∧
          (i + (l.length : ℤ)).toNat < l.length) h
  · simp only [if_neg hi]
    by_cases h : 0 ≤ i ∧ i.toNat < l.length
    · rw [dif_pos h]
      constructor
      · intro _
        omega
      · intro _
        exact ⟨_, rfl⟩
    · rw [dif_neg h]
      constructor
      · rintro ⟨a, ha⟩
        exact absurd ha (by simp)
      · intro hr
        exact absurd (by omega : 0 ≤ i ∧ i.toNat < l.length) h

/-- A non-negative in-range Python index is a plain list lookup. -/
theorem pyIdx_nat {α : Type} (l : List α) (i : ℕ) (h : i < l.length) :
    pyIdx l i = Except.ok (l.get ⟨i, h⟩) := by
  unfold pyIdx
  have hneg : ¬((i : ℤ) < 0) := by omega
  simp only [if_neg hneg]
  have hc : 0 ≤ (i : ℤ) ∧ (i : ℤ).toNat < l.length := by omega
  rw [dif_pos hc]
  congr 1

/-- An index outside `[-len, len)` raises `IndexError`. -/
theorem pyIdx_err {α : Type} (l : List α) (i : ℤ)
    (h : ¬(-(l.length : ℤ) ≤ i ∧ i < (l.length : ℤ))) :
    pyIdx l i = Except.error PyErr.indexError := by
  unfold pyIdx
  rw [dif_neg]
  intro hc
  apply h
  by_cases hlt : i < 0
  · rw [if_pos hlt] at hc
    omega
  · rw [if_neg hlt] at hc
    omega

/-- Dimension of the fully written lattice. -/
theorem fullGrid_length (H : ℕ) (f : ℕ → ℕ → ℚ) :
    (fullGrid H f).length = H + 1 := by
  simp [fullGrid]

/-- Row lookup on the fully written lattice at a natural in-range index. -/
theorem fullGrid_row (H : ℕ) (f : ℕ → ℕ → ℚ) (s : ℕ) (hs : s ≤ H) :
    pyIdx (fullGrid H f) s
      = Except.ok ((List.range (H + 1)).map fun p => some (f s p)) := by
  rw [pyIdx_nat (fullGrid H f) s (by rw [fullGrid_length]; omega)]
  congr 1
  simp [fullGrid]

/-- Any in-range (possibly negative, wrapping) row index of the fully written
lattice yields a row of length `H + 1`. -/
theorem fullGrid_row_int (H : ℕ) (f : ℕ → ℕ → ℚ) (i : ℤ)
    (hi : -(H + 1 : ℤ) ≤ i ∧ i < (H + 1 : ℤ)) :
    ∃ row, pyIdx (fullGrid H f) i = Except.ok row ∧ row.length = H + 1 := by
  obtain ⟨row, hrow⟩ := (pyIdx_ok_iff (fullGrid H f) i).mpr
    (by rw [fullGrid_length]; push_cast; omega)
  refine ⟨row, hrow, ?_⟩
  have hmem : row ∈ fullGrid H f := by
    unfold pyIdx at hrow
    by_cases h : 0 ≤ (if i < 0 then i + ((fullGrid H f).length : ℤ) else i) ∧
        (if i < 0 then i + ((fullGrid H f).length : ℤ) else i).toNat
          < (fullGrid H f).length
    · rw [dif_pos h] at hrow
      injection hrow with hrow'
      rw [← hrow']
      exact List.get_mem _ _ _
    · rw [dif_neg h] at hrow
      exact absurd hrow (by simp)
  simp only [fullGrid, List.mem_map] at hmem
  obtain ⟨a, _, ha⟩ := hmem
  rw [← ha]
  simp

/-- Single-cell access succeeds at every pair of in-range natural indices —
with no `state ≤ period` or triangle check whatsoever. -/
theorem valueAt_fullGrid (H : ℕ) (f : ℕ → ℕ → ℚ) (s p : ℕ)
    (hs : s ≤ H) (hp : p ≤ H) :
    valueAt (fullGrid H f) s p = Except.ok (some (f s p)) := by
  unfold valueAt
  rw [fullGrid_row H f s hs]
  show pyIdx ((List.range (H + 1)).map fun q => some (f s q)) p
    = Except.ok (some (f s p))
  rw [pyIdx_nat _ p (by simp; omega)]
  congr 1
  simp

/-- Single-cell access succeeds exactly when both indices lie in
`[-(H+1), H]` — Python's negative-index wrapping included. -/
theorem valueAt_fullGrid_ok_iff (H : ℕ) (f : ℕ → ℕ → ℚ) (i j : ℤ) :
    (∃ c, valueAt (fullGrid H f) i j = Except.ok c) ↔
      (-(H + 1 : ℤ) ≤ i ∧ i ≤ H ∧ -(H + 1 : ℤ) ≤ j ∧ j ≤ H) := by
  unfold valueAt
  by_cases hi : -(H + 1 : ℤ) ≤ i ∧ i < (H + 1 : ℤ)
  · obtain ⟨row, hrow, hrl⟩ := fullGrid_row_int H f i hi
    rw [hrow]
    show (∃ c, pyIdx row j = Except.ok c) ↔ _
    rw [pyIdx_ok_iff row j, hrl]
    push_cast
    constructor
    · intro h
      exact ⟨hi.1, by omega, by omega, by omega⟩
    · intro h
      exact ⟨by omega, by omega⟩
  · rw [pyIdx_err (fullGrid H f) i (by rw [fullGrid_length]; push_cast; omega)]
    constructor
    · rintro ⟨c, hc⟩
      exact absurd hc (by simp)
    · intro h
      exact absurd (by omega : -(H + 1 : ℤ) ≤ i ∧ i < (H + 1 : ℤ)) hi

/-- Single-cell access with an out-of-range index raises `IndexError`. -/
theorem valueAt_fullGrid_err (H : ℕ) (f : ℕ → ℕ → ℚ) (i j : ℤ)
    (h : ¬(-(H + 1 : ℤ) ≤ i ∧ i ≤ H ∧ -(H + 1 : ℤ) ≤ j ∧ j ≤ H)) :
    valueAt (fullGrid H f) i j = Except.error PyErr.indexError := by
  by_cases hi : -(H + 1 : ℤ) ≤ i ∧ i < (H + 1 : ℤ)
  · obtain ⟨row, hrow, hrl⟩ := fullGrid_row_int H f i hi
    unfold valueAt
    rw [hrow]
    show pyIdx row j = Except.error PyErr.indexError
    apply pyIdx_err
    rw [hrl]
    push_cast
    omega
  · unfold valueAt
    rw [pyIdx_err (fullGrid H f) i (by rw [fullGrid_length]; push_cast; omega)]

/-- Numeric conversion of a written cell succeeds. -/
theorem cellNum_some (q : ℚ) : cellNum (some q) = Except.ok q := rfl

/-- `_back_prop` on a fully written lattice with `0 ≤ state ≤ period` and
`period < horizon` returns the risk-neutral combination of the two successor
cells. -/
theorem backPropL_fullGrid (H : ℕ) (f : ℕ → ℕ → ℚ) (s p : ℕ) (rnp : ℚ × ℚ)
    (hs : s ≤ p) (hp : p < H) :
    backPropL (fullGrid H f) s p rnp
      = Except.ok (f (s + 1) (p + 1) * rnp.1 + f s (p + 1) * rnp.2) := by
  have h1 : valueAt (fullGrid H f) ((s : ℤ) + 1) ((p : ℤ) + 1)
      = Except.ok (some (f (s + 1) (p + 1))) := by
    have h := valueAt_fullGrid H f (s + 1) (p + 1) (by omega) (by omega)
    push_cast at h
    exact h
  have h2 : valueAt (fullGrid H f) (s : ℤ) ((p : ℤ) + 1)
      = Except.ok (some (f s (p + 1))) := by
    have h := valueAt_fullGrid H f s (p + 1) (by omega) (by omega)
    push_cast at h
    exact h
  unfold backPropL
  rw [h1]
  show (match cellNum (some (f (s + 1) (p + 1))) with
    | .error e => Except.error e
    | .ok p1 =>
      match valueAt (fullGrid H f) (s : ℤ) ((p : ℤ) + 1) with
      | .error e => Except.error e
      | .ok c2 =>
        match cellNum c2 with
        | .error e => Except.error e
        | .ok p2 => Except.ok (p1 * rnp.1 + p2 * rnp.2)) = _
  rw [cellNum_some]
  show (match valueAt (fullGrid H f) (s : ℤ) ((p : ℤ) + 1) with
    | .error e => Except.error e
    | .ok c2 =>
      match cellNum c2 with
      | .error e => Except.error e
      | .ok p2 => Except.ok (f (s + 1) (p + 1) * rnp.1 + p2 * rnp.2)) = _
  rw [h2]
  rfl

/-- `_back_prop` at `period ≥ horizon` raises `IndexError` (the column index
`period + 1` escapes the allocated range). -/
theorem backPropL_fullGrid_err (H : ℕ) (f : ℕ → ℕ → ℚ) (s p : ℕ)
    (rnp : ℚ × ℚ) (hs : s ≤ p) (hp : H ≤ p) :
    backPropL (fullGrid H f) s p rnp = Except.error PyErr.indexError := by
  have h1 : valueAt (fullGrid H f) ((s : ℤ) + 1) ((p : ℤ) + 1)
      = Except.error PyErr.indexError := by
    apply valueAt_fullGrid_err
    push_cast
    omega
  unfold backPropL
  rw [h1]

/-- C4 counterexample: on a freshly allocated size-2 lattice, access at
`(state, period) = (1, 0)` — where `state > period` — succeeds (returning the
`''` filler), and access at the negative pair `(-1, -1)` also succeeds by
Python index wrapping; the claim asserts both must fail with `OutOfRange`. -/
theorem lattice_access_unchecked :
    valueAt (latticeAlloc 2) 1 0 = Except.ok none ∧
      valueAt (latticeAlloc 2) (-1) (-1) = Except.ok none :=
  ⟨rfl, rfl⟩

/-- C4 (amended): single-cell access performs no triangle or sign check —
on a fully written `(H+1)×(H+1)` lattice it succeeds exactly when each index
lies in `[-(H+1), H]` (negative indices wrap Python-style, `state > period`
included), returning the stored cell at natural indices; the one-step
back-propagation with `0 ≤ state ≤ period` returns
`value(state+1, period+1)·up + value(state, period+1)·down` when
`period < horizon` and fails (`IndexError`) when `period ≥ horizon`. -/
theorem lattice_access_spec :
    (∀ (H : ℕ) (f : ℕ → ℕ → ℚ) (i j : ℤ),
      (∃ c, valueAt (fullGrid H f) i j = Except.ok c) ↔
        (-(H + 1 : ℤ) ≤ i ∧ i ≤ H ∧ -(H + 1 : ℤ) ≤ j ∧ j ≤ H)) ∧
      (∀ (H : ℕ) (f : ℕ → ℕ → ℚ) (s p : ℕ), s ≤ H → p ≤ H →
        valueAt (fullGrid H f) s p = Except.ok (some (f s p))) ∧
      (∀ (H : ℕ) (f : ℕ → ℕ → ℚ) (s p : ℕ) (rnp : ℚ × ℚ), s ≤ p → p < H →
        backPropL (fullGrid H f) s p rnp
          = Except.ok (f (s + 1) (p + 1) * rnp.1 + f s (p + 1) * rnp.2)) ∧
      (∀ (H : ℕ) (f : ℕ → ℕ → ℚ) (s p : ℕ) (rnp : ℚ × ℚ), s ≤ p → H ≤ p →
        backPropL (fullGrid H f) s p rnp = Except.error PyErr.indexError) :=
  ⟨valueAt_fullGrid_ok_iff, valueAt_fullGrid, backPropL_fullGrid,
    backPropL_fullGrid_err⟩

/-- C4 witness: the amended access/back-propagation theorem applied on the
concrete fully written lattice of horizon 1 holding `f a b = a + b`. -/
theorem lattice_access_spec_witness :
    valueAt (fullGrid 1 (fun a b => (a : ℚ) + b)) 1 0 = Except.ok (some 1) ∧
      backPropL (fullGrid 1 (fun a b => (a : ℚ) + b)) 0 0 (1/2, 1/2)
        = Except.ok (3/2) ∧
      backPropL (fullGrid 1 (fun a b => (a : ℚ) + b)) 1 1 (1/2, 1/2)
        = Except.error PyErr.indexError := by
  obtain ⟨h1, h2, h3, h4⟩ := lattice_access_spec
  refine ⟨?_, ?_, h4 1 (fun a b => (a : ℚ) + b) 1 1 (1/2, 1/2) le_rfl le_rfl⟩
  · have h := h2 1 (fun a b => (a : ℚ) + b) 1 0 le_rfl (by norm_num)
    push_cast at h
    rw [h]
    norm_num
  · have h := h3 1 (fun a b => (a : ℚ) + b) 0 0 (1/2, 1/2) le_rfl (by norm_num)
    push_cast at h
    rw [h]
    norm_num

/-! ## C5 — calibration failure modes of `Security.__init__` -/

/-- `u - d = 0` (with `d = 1/u`, `u = exp x`) happens exactly at `x = 0`. -/
theorem exp_sub_inv_eq_zero_iff (x : ℝ) :
    Real.exp x - 1 / Real.exp x = 0 ↔ x = 0 := by
  constructor
  · intro h
    have hpos := Real.exp_pos x
    have h1 : Real.exp x = 1 / Real.exp x := sub_eq_zero.mp h
    have h2 : Real.exp x * Real.exp x = 1 := by
      field_simp at h1
      linarith [h1]
    have h3 : Real.exp x = 1 := by
      rcases mul_self_eq_one_iff.mp h2 with h | h
      · exact h
      · linarith
    exact (Real.exp_eq_one_iff x).mp h3
  · intro h
    rw [h, Real.exp_zero]
    norm_num

/-- C5 counterexample: with volatility `σ = -1` (and `T = 1`, `N = 1`,
`r = δ = 0`) construction succeeds and produces `(u, d, q)` — the claim
asserts that `σ < 0` must fail with `InvalidCalibration`, but the source
performs no such validation. -/
theorem securityCalib_neg_vol_ok :
    ∃ v, securityCalib 1 (-1) 1 0 0 = Except.ok v := by
  unfold securityCalib
  rw [if_neg (by norm_num : ¬(1 : ℤ) = 0)]
  rw [if_neg (show ¬((1 : ℝ) / ((1 : ℤ) : ℝ) < 0) by norm_num)]
  rw [if_neg ?hg]
  · exact ⟨_, rfl⟩
  case hg =>
    intro h
    have hx := (exp_sub_inv_eq_zero_iff _).mp h
    rw [show ((1 : ℤ) : ℝ) = 1 by norm_num, div_one, Real.sqrt_one] at hx
    norm_num at hx

/-- C5 (amended): `Security.__init__` validates nothing; it fails exactly
where the Python arithmetic raises — `n_periods = 0` (`ZeroDivisionError` in
`T/N`), `T/N < 0` (`math.sqrt` domain error), or `u = d` i.e.
`σ·√(T/N) = 0` (`ZeroDivisionError` in the `q` denominator).  In particular
a negative volatility with `N > 0`, `T/N ≥ 0` and `u ≠ d` calibrates
successfully. -/
theorem securityCalib_ok_iff (T σ : ℝ) (n : ℤ) (r δ : ℝ) :
    (∃ v, securityCalib T σ n r δ = Except.ok v) ↔
      (n ≠ 0 ∧ 0 ≤ T / (n : ℝ) ∧ σ * Real.sqrt (T / (n : ℝ)) ≠ 0) := by
  unfold securityCalib
  by_cases h0 : n = 0
  · rw [if_pos h0]
    constructor
    · rintro ⟨v, hv⟩
      exact absurd hv (by simp)
    · rintro ⟨h, _, _⟩
      exact absurd h0 h
  · rw [if_neg h0]
    by_cases h1 : T / (n : ℝ) < 0
    · rw [if_pos h1]
      constructor
      · rintro ⟨v, hv⟩
        exact absurd hv (by simp)
      · rintro ⟨_, h2, _⟩
        linarith
    · rw [if_neg h1]
      by_cases h2 : Real.exp (σ * Real.sqrt (T / (n : ℝ)))
          - 1 / Real.exp (σ * Real.sqrt (T / (n : ℝ))) = 0
      · rw [if_pos h2]
        constructor
        · rintro ⟨v, hv⟩
          exact absurd hv (by simp)
        · rintro ⟨_, _, h3⟩
          exact absurd ((exp_sub_inv_eq_zero_iff _).mp h2) h3
      · rw [if_neg h2]
        constructor
        · intro _
          refine ⟨h0, by linarith [not_lt.mp h1], ?_⟩
          intro hx
          exact h2 ((exp_sub_inv_eq_zero_iff _).mpr hx)
        · intro _
          exact ⟨_, rfl⟩

/-! ## C7 — `u·d = 1` and `0 < q < 1` under no-arbitrage -/

/-- C7: for every calibrated equity model with a positive period count, the
binomial factors satisfy `u·d = 1` exactly (since `d` is computed as `1/u`),
and whenever the no-arbitrage condition `d < exp((r-δ)·T/N) < u` holds the
risk-neutral probability `q = (exp((r-δ)·T/N) - d)/(u - d)` lies strictly
between 0 and 1. -/
theorem security_ud_q (sec : Security) (hn : 0 < sec.n_periods) :
    sec.r_ud.1 * sec.r_ud.2 = 1 ∧
      (sec.r_ud.2 < sec.growthFactor → sec.growthFactor < sec.r_ud.1 →
        0 < sec.rfp ∧ sec.rfp < 1) := by
  constructor
  · show Real.exp _ * (1 / Real.exp _) = 1
    rw [mul_one_div, div_self (Real.exp_ne_zero _)]
  · intro hd hu
    unfold Security.rfp
    have hden : 0 < sec.r_ud.1 - sec.r_ud.2 := by linarith
    constructor
    · apply div_pos _ hden
      linarith
    · rw [div_lt_one hden]
      linarith

/-- C7 witness: the `u·d`/`q` theorem applied to the concrete model
`S0 = 100, T = 1, σ = 1, N = 1, r = 0, δ = 0`, whose no-arbitrage condition
`1/e < 1 < e` is discharged explicitly. -/
theorem security_ud_q_witness :
    0 < (⟨100, 1, 1, 1, 0, 0⟩ : Security).n_periods ∧
      (⟨100, 1, 1, 1, 0, 0⟩ : Security).r_ud.1
          * (⟨100, 1, 1, 1, 0, 0⟩ : Security).r_ud.2 = 1 ∧
      (0 < (⟨100, 1, 1, 1, 0, 0⟩ : Security).rfp ∧
        (⟨100, 1, 1, 1, 0, 0⟩ : Security).rfp < 1) := by
  have h := security_ud_q ⟨100, 1, 1, 1, 0, 0⟩ (by norm_num)
  have hexp : (1 : ℝ) < Real.exp 1 := lt_trans (by norm_num) Real.exp_one_gt_d9
  have hgf : (⟨100, 1, 1, 1, 0, 0⟩ : Security).growthFactor = 1 := by
    unfold Security.growthFactor
    norm_num
  have h1 : (⟨100, 1, 1, 1, 0, 0⟩ : Security).r_ud.1 = Real.exp 1 := by
    unfold Security.r_ud
    norm_num [Real.sqrt_one]
  have h2 : (⟨100, 1, 1, 1, 0, 0⟩ : Security).r_ud.2 = 1 / Real.exp 1 := by
    unfold Security.r_ud
    norm_num [Real.sqrt_one]
  have hd : (⟨100, 1, 1, 1, 0, 0⟩ : Security).r_ud.2
      < (⟨100, 1, 1, 1, 0, 0⟩ : Security).growthFactor := by
    rw [h2, hgf, div_lt_one (Real.exp_pos 1)]
    exact hexp
  have hu : (⟨100, 1, 1, 1, 0, 0⟩ : Security).growthFactor
      < (⟨100, 1, 1, 1, 0, 0⟩ : Security).r_ud.1 := by
    rw [h1, hgf]
    exact hexp
  exact ⟨by norm_num, h.1, h.2 hd hu⟩

end Derivatives
